import Mathlib

/-!
Shallow embedding of the Osmosis block-proposer indexer
(`src/indexer/src/main.rs`), the authoritative variant of the indexing
cycle.  Pure data is translated directly; the effectful parts (HTTP
fetches, the Postgres client, task join order) are made explicit as an
environment record, and the per-cycle catch-up loop is given fuel that
the caller sets to `(last_height - height_to_index).toNat`, a bound on
the number of iterations.
-/

namespace Osmosis

/-- Errors of the indexer, from `enum Error` (src/indexer/src/main.rs, lines 52-65). -/
inductive Error where
  | CouldNotCreateHttpClient
  | CouldNotBuildHttpRequest
  | CouldNotGetResponseFromServer
  | CouldNotParseResponseForBlockAtHeight
  | CouldNotParseResponseForBlockchain
  | CouldNotProcessResponsesInParallel
  | CouldNotCreateDatabaseClient
  | CouldNotFindIndexedHeight
  | CouldNotIndexDuplicateHeight
  | InsertedIncorrectNumberOfRows
deriving DecidableEq, Repr

/-- Rust `struct Header`: the decoded block header (height arrives as a decimal
string on the wire and is parsed to `i64`, modelled as `Int`). -/
structure Header where
  height : Int
  proposer_address : String
deriving DecidableEq, Repr

/-- Rust `struct ProposerToHeight`: one row of the `proposer_to_height` table. -/
structure ProposerToHeight where
  proposer : String
  height : Int
deriving DecidableEq, Repr

/-- The persisted table: a bag of rows. -/
abbrev Store := List ProposerToHeight

def OSMOSIS_LOWEST_HEIGHT : Int := 9558628

def MAXIMUM_NUMBER_OF_PARALLEL_REQUESTS : Int := 5

/-- The query `SELECT max(height) FROM proposer_to_height`: an aggregate query always
returns exactly one row, whose value is NULL exactly when the table has no
rows. -/
def selectMaxHeight (s : Store) : List (Option Int) :=
  [(s.map ProposerToHeight.height).max?]

/-- Lines 117-124: `.get(0).map_or_else(|| OSMOSIS_LOWEST_HEIGHT - 1, |r|
r.try_get(0).map_or_else(|_| OSMOSIS_LOWEST_HEIGHT - 1, |v| v))` — the
missing-row and NULL-value cases both fall back to the lowest height minus
one. -/
def lastIndexedHeight (s : Store) : Int :=
  match (selectMaxHeight s).head? with
  | none => OSMOSIS_LOWEST_HEIGHT - 1
  | some none => OSMOSIS_LOWEST_HEIGHT - 1
  | some (some v) => v

/-- Variable `height_to_index` (lines 117-124): the last indexed height plus one. -/
def height_to_index (s : Store) : Int := lastIndexedHeight s + 1

/-- The heights of the Rust range `a..b` over `i64` (empty when `b ≤ a`). -/
def intRange (a b : Int) : List Int :=
  (List.range (b - a).toNat).map (fun (i : Nat) => a + (i : Int))

/-- Lines 139-143: the exclusive end of the current batch,
`min(first + MAXIMUM_NUMBER_OF_PARALLEL_REQUESTS, last)` written as the
source writes it. -/
def last_height_to_index (first last : Int) : Int :=
  if first + MAXIMUM_NUMBER_OF_PARALLEL_REQUESTS > last then last
  else first + MAXIMUM_NUMBER_OF_PARALLEL_REQUESTS

/-- Lines 218-221: turn a decoded block response into a row, pairing the
proposer with the height carried in the header of the same block. -/
def recordOfResponse (hd : Header) : ProposerToHeight :=
  ⟨hd.proposer_address, hd.height⟩

/-- Function `request_proposers` (lines 193-227), after the spawn phase: the joined
results are processed in completion order (the argument list); the first
failed result aborts the whole batch, otherwise each decoded header is
pushed as a row. `fetchBlock` bundles one spawned task: join, request and
decode of a single height (any of which may fail with its own error). -/
def request_proposers (fetchBlock : Int → Except Error Header) :
    List Int → Except Error (List ProposerToHeight)
  | [] => Except.ok []
  | h :: rest =>
    match fetchBlock h with
    | Except.error e => Except.error e
    | Except.ok hd =>
      match request_proposers fetchBlock rest with
      | Except.error e => Except.error e
      | Except.ok rows => Except.ok (recordOfResponse hd :: rows)

/-- Total extractor for the row a (successful) fetch of height `h`
produces. -/
def recordOf (fetchBlock : Int → Except Error Header) (h : Int) :
    ProposerToHeight :=
  match fetchBlock h with
  | Except.ok hd => recordOfResponse hd
  | Except.error _ => ⟨"", 0⟩

/-- The effectful surroundings of one cycle: the `/blockchain` latest-height
request, the per-height spawned fetch tasks, the completion order chosen by
the scheduler for the spawned heights of a batch, and the database `execute` of
the multi-row insert (returning the new table state and the affected-row
count, or a database error that leaves the table unchanged). -/
structure Env where
  lastHeight : Except Error Int
  fetchBlock : Int → Except Error Header
  completion : List Int → List Int
  insert : Store → List ProposerToHeight → Except Error (Store × Nat)

/-- Observable outcome of one cycle: final table state, every height for
which a fetch was issued, the number of loop iterations (batches) entered,
the number of insert statements executed, and the result of the cycle. -/
structure CycleOutcome where
  store : Store
  fetchedHeights : List Int
  batches : Nat
  insertsExecuted : Nat
  error : Option Error
deriving DecidableEq, Repr

/-- The catch-up loop of `index` (lines 136-161).  One fuel unit per
iteration; the caller supplies fuel `≥ (last - first).toNat`, which is
shown below to be enough for the loop to finish on its own. -/
def indexLoop (env : Env) : Nat → Int → Int → Store → CycleOutcome
  | 0, _, _, s => ⟨s, [], 0, 0, none⟩
  | fuel + 1, first, last, s =>
    if first < last then
      let lasti := last_height_to_index first last
      let spawned := intRange first lasti
      match request_proposers env.fetchBlock (env.completion spawned) with
      | Except.error e => ⟨s, spawned, 1, 0, some e⟩
      | Except.ok proposers_to_height =>
        match env.insert s proposers_to_height with
        | Except.error e => ⟨s, spawned, 1, 1, some e⟩
        | Except.ok (s2, count_rows_inserted) =>
          if count_rows_inserted ≠ proposers_to_height.length then
            ⟨s2, spawned, 1, 1, some Error.InsertedIncorrectNumberOfRows⟩
          else
            let rest := indexLoop env fuel lasti last s2
            ⟨rest.store, spawned ++ rest.fetchedHeights, rest.batches + 1,
              rest.insertsExecuted + 1, rest.error⟩
    else ⟨s, [], 0, 0, none⟩

/-- Function `index` (lines 115-163): read the checkpoint, ask for the latest
height, return success at once when already caught up, otherwise run the
batched catch-up loop. -/
def index (env : Env) (s : Store) : CycleOutcome :=
  let h := height_to_index s
  match env.lastHeight with
  | Except.error e => ⟨s, [], 0, 0, some e⟩
  | Except.ok last_height =>
    if h > last_height then ⟨s, [], 0, 0, none⟩
    else indexLoop env (last_height - h).toNat h last_height s

/-- A database connection handle (opaque to the claims). -/
structure DbClient where
  id : Nat
deriving DecidableEq, Repr

/-- Function `connect_to_database` (lines 92-99): `for _ in 0..10` attempts,
sleeping a fixed two seconds before each; `attempt k` is the outcome of
the `k`-th `connect_to_database_unsafe` call. -/
def connect_to_database_from (attempt : Nat → Option DbClient) :
    Nat → Nat → Except Error DbClient
  | 0, _ => Except.error Error.CouldNotCreateDatabaseClient
  | n + 1, k =>
    match attempt k with
    | some c => Except.ok c
    | none => connect_to_database_from attempt n (k + 1)

def connect_to_database (attempt : Nat → Option DbClient) :
    Except Error DbClient :=
  connect_to_database_from attempt 10 0

/-- What `main` (lines 67-88) reaches: either it returns early with an
error (the `?` operators), or it spawns the periodic `forever` loop, which
never terminates. -/
inductive MainPhase where
  | failedStartup (e : Error)
  | runningLoop (c : DbClient)
deriving DecidableEq, Repr

def main_startup (httpClientOk : Bool) (attempt : Nat → Option DbClient) :
    MainPhase :=
  if httpClientOk then
    match connect_to_database attempt with
    | Except.error e => MainPhase.failedStartup e
    | Except.ok c => MainPhase.runningLoop c
  else MainPhase.failedStartup Error.CouldNotCreateHttpClient

/-- A well-behaved chain: the block at height `h` reports height `h` in
its own header. -/
def chainHeader (h : Int) : Header := ⟨h, "p" ++ toString h⟩

def honestFetch (h : Int) : Except Error Header := Except.ok (chainHeader h)

def chainRecord (h : Int) : ProposerToHeight := recordOfResponse (chainHeader h)

/-- A faithful Postgres `INSERT`: with `height` as primary key the whole
statement fails on any conflicting height (within the batch or against the
table) and otherwise appends all rows, reporting their number. -/
def dbInsert (s : Store) (rows : List ProposerToHeight) :
    Except Error (Store × Nat) :=
  if (rows.map ProposerToHeight.height).Nodup ∧
      ∀ r ∈ rows, ∀ r0 ∈ s, r0.height ≠ r.height then
    Except.ok (s ++ rows, rows.length)
  else
    Except.error Error.CouldNotIndexDuplicateHeight

/-- The environment in which the upstream reports `latest`, every fetch
succeeds with the true header, completion order equals spawn order, and
the database behaves. -/
def honestEnv (latest : Int) : Env :=
  ⟨Except.ok latest, honestFetch, id, dbInsert⟩

deriving instance DecidableEq for Except

/-- An environment whose database reports an affected-row count of zero for
every insert (e.g. a driver misreporting, or rows silently dropped). -/
def badCountEnv : Env := ⟨Except.ok 10, honestFetch, id, fun s _ => Except.ok (s, 0)⟩

/-- An environment in which every spawned fetch task fails to join. -/
def failFetchEnv : Env :=
  ⟨Except.ok 10, fun _ => Except.error Error.CouldNotProcessResponsesInParallel, id, dbInsert⟩

/-! ### Basic facts about ranges and the SQL `max` aggregate -/

instance : Std.Antisymm (fun (x1 x2 : Int) => x1 ≤ x2) :=
  ⟨fun h1 h2 => le_antisymm h1 h2⟩

lemma int_max?_iff {l : List Int} {m : Int} :
    l.max? = some m ↔ m ∈ l ∧ ∀ b ∈ l, b ≤ m :=
  List.max?_eq_some_iff (fun _ => le_refl _) (fun _ _ => max_choice _ _)
    (fun _ _ _ => max_le_iff)

lemma mem_intRange {a b h : Int} : h ∈ intRange a b ↔ a ≤ h ∧ h < b := by
  simp only [intRange, List.mem_map, List.mem_range]
  constructor
  · rintro ⟨i, hi, rfl⟩
    omega
  · intro hab
    exact ⟨(h - a).toNat, by omega, by omega⟩

lemma intRange_eq_nil {a b : Int} (h : b ≤ a) : intRange a b = [] := by
  simp [intRange, Int.toNat_of_nonpos (by omega : b - a ≤ 0)]

lemma intRange_append {a b c : Int} (h1 : a ≤ b) (h2 : b ≤ c) :
    intRange a b ++ intRange b c = intRange a c := by
  unfold intRange
  rw [show (c - a).toNat = (b - a).toNat + (c - b).toNat by omega, List.range_add,
    List.map_append, List.map_map]
  congr 1
  apply List.map_congr_left
  intro i hi
  simp only [Function.comp_apply]
  push_cast
  omega

lemma intRange_nodup {a b : Int} : (intRange a b).Nodup := by
  apply List.Nodup.map
  · intro x y hxy
    exact_mod_cast add_left_cancel hxy
  · exact List.nodup_range _

/-! ### The checkpoint read -/

lemma lastIndexedHeight_eq (s : Store) :
    lastIndexedHeight s =
      ((s.map ProposerToHeight.height).max?).getD (OSMOSIS_LOWEST_HEIGHT - 1) := by
  unfold lastIndexedHeight selectMaxHeight
  cases h : (s.map ProposerToHeight.height).max? <;> simp [h]

lemma height_le_lastIndexedHeight {s : Store} {r : ProposerToHeight} (hr : r ∈ s) :
    r.height ≤ lastIndexedHeight s := by
  have hmem : r.height ∈ s.map ProposerToHeight.height := List.mem_map_of_mem _ hr
  obtain ⟨m, hm⟩ := Option.isSome_iff_exists.mp (List.isSome_max?_of_mem hmem)
  have hle := (int_max?_iff.mp hm).2 _ hmem
  rw [lastIndexedHeight_eq, hm]
  simpa using hle

lemma lastIndexedHeight_nil : lastIndexedHeight [] = OSMOSIS_LOWEST_HEIGHT - 1 := rfl

/-! ### The batch fetch -/

lemma request_proposers_ok {fetchBlock : Int → Except Error Header} {ord : List Int}
    (h : ∀ x ∈ ord, ∃ hd, fetchBlock x = Except.ok hd) :
    request_proposers fetchBlock ord = Except.ok (ord.map (recordOf fetchBlock)) := by
  induction ord with
  | nil => rfl
  | cons a rest ih =>
    obtain ⟨hd, hfa⟩ := h a (by simp)
    have hrest := ih (fun x hx => h x (by simp [hx]))
    simp [request_proposers, hfa, hrest, recordOf]

lemma request_proposers_error {fetchBlock : Int → Except Error Header} {ord : List Int}
    (h : ∃ x ∈ ord, ∃ e, fetchBlock x = Except.error e) :
    ∃ e, request_proposers fetchBlock ord = Except.error e := by
  induction ord with
  | nil => simp at h
  | cons a rest ih =>
    cases hfa : fetchBlock a with
    | error e => exact ⟨e, by simp [request_proposers, hfa]⟩
    | ok hd =>
      have hrest : ∃ x ∈ rest, ∃ e, fetchBlock x = Except.error e := by
        rcases h with ⟨x, hx, e, he⟩
        rcases List.mem_cons.mp hx with rfl | hx2
        · rw [hfa] at he; cases he
        · exact ⟨x, hx2, e, he⟩
      rcases ih hrest with ⟨e, he⟩
      refine ⟨e, ?_⟩
      simp [request_proposers, hfa, he]

/-! ### The batch bound -/

lemma last_height_to_index_bounds {first last : Int} (h : first < last) :
    first < last_height_to_index first last ∧ last_height_to_index first last ≤ last := by
  unfold last_height_to_index MAXIMUM_NUMBER_OF_PARALLEL_REQUESTS
  split <;> omega

lemma last_height_to_index_eq {first last : Int} :
    last_height_to_index first last = min (first + 5) last := by
  unfold last_height_to_index MAXIMUM_NUMBER_OF_PARALLEL_REQUESTS
  split <;> omega

/-! ### The catch-up loop -/

lemma indexLoop_zero (env : Env) (first last : Int) (s : Store) :
    indexLoop env 0 first last s = ⟨s, [], 0, 0, none⟩ := rfl

lemma indexLoop_succ_eq (env : Env) (fuel : Nat) (first last : Int) (s : Store) :
    indexLoop env (fuel + 1) first last s =
      if first < last then
        (match request_proposers env.fetchBlock
            (env.completion (intRange first (last_height_to_index first last))) with
         | Except.error e =>
             ⟨s, intRange first (last_height_to_index first last), 1, 0, some e⟩
         | Except.ok rows =>
           match env.insert s rows with
           | Except.error e =>
               ⟨s, intRange first (last_height_to_index first last), 1, 1, some e⟩
           | Except.ok (s2, cnt) =>
             if cnt ≠ rows.length then
               ⟨s2, intRange first (last_height_to_index first last), 1, 1,
                 some Error.InsertedIncorrectNumberOfRows⟩
             else
               let rest := indexLoop env fuel (last_height_to_index first last) last s2
               ⟨rest.store, intRange first (last_height_to_index first last) ++ rest.fetchedHeights,
                 rest.batches + 1, rest.insertsExecuted + 1, rest.error⟩)
      else ⟨s, [], 0, 0, none⟩ := rfl

lemma indexLoop_fetched_bounds (env : Env) (last : Int) :
    ∀ (fuel : Nat) (first : Int) (s : Store),
      ∀ x ∈ (indexLoop env fuel first last s).fetchedHeights, first ≤ x ∧ x < last := by
  intro fuel
  induction fuel with
  | zero => intro first s x hx; simp [indexLoop_zero] at hx
  | succ fuel ih =>
    intro first s x hx
    rw [indexLoop_succ_eq] at hx
    by_cases hfl : first < last
    · have hb := last_height_to_index_bounds hfl
      rw [if_pos hfl] at hx
      rcases hrp : request_proposers env.fetchBlock
          (env.completion (intRange first (last_height_to_index first last))) with e | rows
      · rw [hrp] at hx
        simp only at hx
        have := mem_intRange.mp hx
        omega
      · rw [hrp] at hx
        simp only at hx
        rcases hins : env.insert s rows with e | p
        · rw [hins] at hx
          simp only at hx
          have := mem_intRange.mp hx
          omega
        · obtain ⟨s2, cnt⟩ := p
          rw [hins] at hx
          simp only at hx
          by_cases hc : cnt = rows.length
          · simp only [hc, ne_eq, not_true_eq_false, if_false, List.mem_append] at hx
            rcases hx with hx | hx
            · have := mem_intRange.mp hx
              omega
            · have := ih (last_height_to_index first last) s2 x hx
              omega
          · simp only [ne_eq, hc, not_false_eq_true, if_true] at hx
            have := mem_intRange.mp hx
            omega
    · rw [if_neg hfl] at hx
      simp at hx

lemma indexLoop_succ_stable (env : Env) (last : Int) :
    ∀ (fuel : Nat) (first : Int) (s : Store), (last - first).toNat ≤ fuel →
      indexLoop env (fuel + 1) first last s = indexLoop env fuel first last s := by
  intro fuel
  induction fuel with
  | zero =>
    intro first s hfuel
    have hnl : ¬ first < last := by omega
    rw [indexLoop_succ_eq, if_neg hnl, indexLoop_zero]
  | succ fuel ih =>
    intro first s hfuel
    by_cases hfl : first < last
    · have hb := last_height_to_index_bounds hfl
      rw [indexLoop_succ_eq, indexLoop_succ_eq env fuel, if_pos hfl, if_pos hfl]
      rcases hrp : request_proposers env.fetchBlock
          (env.completion (intRange first (last_height_to_index first last))) with e | rows
      · rfl
      · simp only
        rcases hins : env.insert s rows with e | p
        · rfl
        · obtain ⟨s2, cnt⟩ := p
          simp only
          by_cases hc : cnt = rows.length
          · simp only [hc, ne_eq, not_true_eq_false, if_false]
            rw [ih (last_height_to_index first last) s2 (by omega)]
          · simp only [ne_eq, hc, not_false_eq_true, if_true]
    · rw [indexLoop_succ_eq, indexLoop_succ_eq, if_neg hfl, if_neg hfl]

lemma indexLoop_stable (env : Env) (last : Int) (fuel : Nat) :
    ∀ (first : Int) (s : Store), (last - first).toNat ≤ fuel →
      indexLoop env fuel first last s =
        indexLoop env ((last - first).toNat) first last s := by
  induction fuel with
  | zero =>
    intro first s hfuel
    rw [show (last - first).toNat = 0 by omega]
  | succ fuel ih =>
    intro first s hfuel
    by_cases heq : (last - first).toNat = fuel + 1
    · rw [heq]
    · have hle : (last - first).toNat ≤ fuel := by omega
      rw [indexLoop_succ_stable env last fuel first s hle, ih first s hle]

lemma indexLoop_batches_le (env : Env) (last : Int) :
    ∀ (fuel : Nat) (first : Int) (s : Store),
      (indexLoop env fuel first last s).batches ≤ ((last - first).toNat + 4) / 5 := by
  intro fuel
  induction fuel with
  | zero => intro first s; rw [indexLoop_zero]; exact Nat.zero_le _
  | succ fuel ih =>
    intro first s
    by_cases hfl : first < last
    · have hb := last_height_to_index_bounds hfl
      have hbe := @last_height_to_index_eq first last
      have h1 : 1 ≤ ((last - first).toNat + 4) / 5 := by omega
      rw [indexLoop_succ_eq, if_pos hfl]
      rcases hrp : request_proposers env.fetchBlock
          (env.completion (intRange first (last_height_to_index first last))) with e | rows
      · simpa using h1
      · simp only
        rcases hins : env.insert s rows with e | p
        · simpa using h1
        · obtain ⟨s2, cnt⟩ := p
          simp only
          by_cases hc : cnt = rows.length
          · simp only [hc, ne_eq, not_true_eq_false, if_false]
            have := ih (last_height_to_index first last) s2
            omega
          · simp only [ne_eq, hc, not_false_eq_true, if_true]
            simpa using h1
    · rw [indexLoop_succ_eq, if_neg hfl]
      exact Nat.zero_le _

/-! ### A fully successful run against the honest environment -/

lemma chainRecord_height (h : Int) : (chainRecord h).height = h := rfl

lemma map_height_map_chainRecord (l : List Int) :
    (l.map chainRecord).map ProposerToHeight.height = l := by
  have hcomp : ProposerToHeight.height ∘ chainRecord = id := funext (fun h => rfl)
  rw [List.map_map, hcomp, List.map_id]

lemma indexLoop_honest (L : Int) :
    ∀ (fuel : Nat) (first : Int) (s : Store),
      (L - first).toNat ≤ fuel →
      (∀ r ∈ s, r.height < first) →
      (indexLoop (honestEnv L) fuel first L s).store
          = s ++ (intRange first L).map chainRecord ∧
      (indexLoop (honestEnv L) fuel first L s).error = none := by
  intro fuel
  induction fuel with
  | zero =>
    intro first s hfuel hs
    rw [indexLoop_zero]
    simp [intRange_eq_nil (by omega : L ≤ first)]
  | succ fuel ih =>
    intro first s hfuel hs
    by_cases hfl : first < L
    · have hb := last_height_to_index_bounds hfl
      have hrp : request_proposers (honestEnv L).fetchBlock
          ((honestEnv L).completion (intRange first (last_height_to_index first L)))
          = Except.ok ((intRange first (last_height_to_index first L)).map chainRecord) :=
        request_proposers_ok (fun x _ => ⟨chainHeader x, rfl⟩)
      have hins : (honestEnv L).insert s
            ((intRange first (last_height_to_index first L)).map chainRecord)
          = Except.ok
              (s ++ (intRange first (last_height_to_index first L)).map chainRecord,
               ((intRange first (last_height_to_index first L)).map chainRecord).length) := by
        show dbInsert _ _ = _
        unfold dbInsert
        rw [if_pos]
        constructor
        · rw [map_height_map_chainRecord]
          exact intRange_nodup
        · intro r hr r0 hr0
          obtain ⟨h, hh, rfl⟩ := List.mem_map.mp hr
          rw [chainRecord_height]
          have := mem_intRange.mp hh
          have := hs r0 hr0
          omega
      rw [indexLoop_succ_eq, if_pos hfl, hrp]
      simp only
      rw [hins]
      simp only [ne_eq, not_true_eq_false, if_false]
      have hrows : ∀ r ∈ s ++ (intRange first (last_height_to_index first L)).map chainRecord,
          r.height < last_height_to_index first L := by
        intro r hr
        rcases List.mem_append.mp hr with hr | hr
        · have := hs r hr
          omega
        · obtain ⟨h, hh, rfl⟩ := List.mem_map.mp hr
          rw [chainRecord_height]
          exact (mem_intRange.mp hh).2
      have hrec := ih (last_height_to_index first L)
        (s ++ (intRange first (last_height_to_index first L)).map chainRecord)
        (by omega) hrows
      refine ⟨?_, hrec.2⟩
      rw [hrec.1, List.append_assoc, ← List.map_append, intRange_append (le_of_lt hb.1) hb.2]
    · have hnil : intRange first L = [] := intRange_eq_nil (by omega)
      rw [indexLoop_succ_eq, if_neg hfl]
      simp [hnil]

/-! ### The startup connector -/

lemma connect_from_succ (attempt : Nat → Option DbClient) (n k : Nat) :
    connect_to_database_from attempt (n + 1) k =
      match attempt k with
      | some c => Except.ok c
      | none => connect_to_database_from attempt n (k + 1) := rfl

lemma connect_from_fail (attempt : Nat → Option DbClient) :
    ∀ (n k0 : Nat), (∀ j, j < n → attempt (k0 + j) = none) →
      connect_to_database_from attempt n k0
        = Except.error Error.CouldNotCreateDatabaseClient := by
  intro n
  induction n with
  | zero => intro k0 hnone; rfl
  | succ n ih =>
    intro k0 hnone
    have h0 : attempt k0 = none := by simpa using hnone 0 (by omega)
    rw [connect_from_succ, h0]
    refine ih (k0 + 1) (fun j hj => ?_)
    have := hnone (j + 1) (by omega)
    rw [show k0 + (j + 1) = k0 + 1 + j by omega] at this
    exact this

lemma connect_from_first (attempt : Nat → Option DbClient) :
    ∀ (n k0 k : Nat) (c : DbClient), k0 ≤ k → k < k0 + n → attempt k = some c →
      (∀ j, k0 ≤ j → j < k → attempt j = none) →
      connect_to_database_from attempt n k0 = Except.ok c := by
  intro n
  induction n with
  | zero => intro k0 k c h1 h2 _ _; omega
  | succ n ih =>
    intro k0 k c h1 h2 hk hnone
    by_cases hek : k0 = k
    · subst hek
      rw [connect_from_succ, hk]
    · have h0 : attempt k0 = none := hnone k0 le_rfl (by omega)
      rw [connect_from_succ, h0]
      exact ih (k0 + 1) k c (by omega) (by omega) hk (fun j hj1 hj2 => hnone j (by omega) hj2)

/-! ## The claims -/

/-- C1: for a cycle beginning with `nextHeight = 100`, reported
`latest = 107` and batch width `B = 5`, the cycle performs exactly two
batches, covering `[100,105)` and then `[105,107)`, each batch end being
`min(nextHeight + B, latest)`; after the cycle succeeds the store contains
exactly the heights `100..106`, with no gaps and no duplicates.  The same
cycle run through `index` from a store checkpointed at height 99 adds
exactly those heights. -/
theorem batch_completeness :
    (indexLoop (honestEnv 107) 7 100 107 []).store.map ProposerToHeight.height
        = intRange 100 107 ∧
    ((indexLoop (honestEnv 107) 7 100 107 []).store.map ProposerToHeight.height).Nodup ∧
    (indexLoop (honestEnv 107) 7 100 107 []).fetchedHeights
        = intRange 100 105 ++ intRange 105 107 ∧
    (indexLoop (honestEnv 107) 7 100 107 []).batches = 2 ∧
    (indexLoop (honestEnv 107) 7 100 107 []).error = none ∧
    (index (honestEnv 107) [⟨"q", 99⟩]).store.map ProposerToHeight.height
        = 99 :: intRange 100 107 ∧
    (index (honestEnv 107) [⟨"q", 99⟩]).batches = 2 ∧
    (index (honestEnv 107) [⟨"q", 99⟩]).error = none ∧
    last_height_to_index 100 107 = min (100 + MAXIMUM_NUMBER_OF_PARALLEL_REQUESTS) 107 ∧
    last_height_to_index 105 107 = min (105 + MAXIMUM_NUMBER_OF_PARALLEL_REQUESTS) 107 := by
  decide

/-- C2: every cycle computes the next height to index as one plus the
stored maximum; for a store holding exactly the heights `L..K` this is
`K + 1` however the rows are ordered, and for an empty store it is the
configured lowest height. -/
theorem idempotent_resume (s : Store) (L K : Int) (h1 : L ≤ K)
    (h2 : (s.map ProposerToHeight.height).Perm (intRange L (K + 1))) :
    height_to_index s = K + 1 ∧ height_to_index [] = OSMOSIS_LOWEST_HEIGHT := by
  constructor
  · have hmax : (s.map ProposerToHeight.height).max? = some K := by
      apply int_max?_iff.mpr
      refine ⟨h2.mem_iff.mpr (mem_intRange.mpr ⟨h1, by omega⟩), ?_⟩
      intro b hb
      have := mem_intRange.mp (h2.mem_iff.mp hb)
      omega
    unfold height_to_index
    rw [lastIndexedHeight_eq, hmax]
    rfl
  · decide

theorem idempotent_resume_witness :
    height_to_index [⟨"a", 5⟩, ⟨"b", 6⟩] = 6 + 1 ∧
    height_to_index [] = OSMOSIS_LOWEST_HEIGHT :=
  idempotent_resume [⟨"a", 5⟩, ⟨"b", 6⟩] 5 6 (by decide) (by decide)

/-- C3: in any batch whose insert reports a row count different from the
number of fetched records, the cycle stops with
`InsertedIncorrectNumberOfRows`: exactly one batch was entered, no further
batch runs, and the store is whatever the insert left committed. -/
theorem atomic_batch_insert (env : Env) (fuel : Nat) (first last : Int) (s s2 : Store)
    (rows : List ProposerToHeight) (cnt : Nat)
    (h1 : first < last)
    (h2 : request_proposers env.fetchBlock
        (env.completion (intRange first (last_height_to_index first last))) = Except.ok rows)
    (h3 : env.insert s rows = Except.ok (s2, cnt))
    (h4 : cnt ≠ rows.length) :
    indexLoop env (fuel + 1) first last s =
      ⟨s2, intRange first (last_height_to_index first last), 1, 1,
        some Error.InsertedIncorrectNumberOfRows⟩ := by
  rw [indexLoop_succ_eq, if_pos h1, h2]
  simp only
  rw [h3]
  simp only
  rw [if_pos h4]

theorem atomic_batch_insert_witness :
    indexLoop badCountEnv 1 0 1 [] =
      ⟨[], intRange 0 (last_height_to_index 0 1), 1, 1,
        some Error.InsertedIncorrectNumberOfRows⟩ :=
  atomic_batch_insert badCountEnv 0 0 1 [] [] [⟨"p0", 0⟩] 0 (by decide) (by decide) rfl
    (by decide)

/-- C4: if any single per-height fetch task of a batch fails (join failure
or request/decode failure), the whole batch fetch returns an error, the
cycle aborts before any insert for that batch, and the store is unchanged
— no partial set of the records of that batch is written. -/
theorem batch_fetch_all_or_nothing (env : Env) (fuel : Nat) (first last : Int) (s : Store)
    (h1 : first < last)
    (h2 : ∃ x ∈ env.completion (intRange first (last_height_to_index first last)),
        ∃ e, env.fetchBlock x = Except.error e) :
    ∃ e, request_proposers env.fetchBlock
        (env.completion (intRange first (last_height_to_index first last))) = Except.error e ∧
      indexLoop env (fuel + 1) first last s =
        ⟨s, intRange first (last_height_to_index first last), 1, 0, some e⟩ := by
  obtain ⟨e, he⟩ := request_proposers_error h2
  refine ⟨e, he, ?_⟩
  rw [indexLoop_succ_eq, if_pos h1, he]

theorem batch_fetch_all_or_nothing_witness :
    ∃ e, request_proposers failFetchEnv.fetchBlock
        (failFetchEnv.completion (intRange 0 (last_height_to_index 0 1))) = Except.error e ∧
      indexLoop failFetchEnv 1 0 1 [] =
        ⟨[], intRange 0 (last_height_to_index 0 1), 1, 0, some e⟩ :=
  batch_fetch_all_or_nothing failFetchEnv 0 0 1 [] (by decide)
    ⟨0, by decide, Error.CouldNotProcessResponsesInParallel, rfl⟩

/-- C5: every height for which a fetch is issued during a cycle lies in
`[nextHeight, latest)` for the latest height the upstream reported; in
particular no fetch is ever issued at or beyond `latest`. -/
theorem batch_bounds_within_latest (env : Env) (s : Store) (latest : Int)
    (h : env.lastHeight = Except.ok latest) :
    ∀ x ∈ (index env s).fetchedHeights, height_to_index s ≤ x ∧ x < latest := by
  intro x hx
  unfold index at hx
  rw [h] at hx
  simp only at hx
  by_cases hgt : height_to_index s > latest
  · rw [if_pos hgt] at hx
    simp at hx
  · rw [if_neg hgt] at hx
    exact indexLoop_fetched_bounds env latest _ (height_to_index s) s x hx

theorem batch_bounds_within_latest_witness :
    height_to_index [⟨"q", 99⟩] ≤ 100 ∧ (100 : Int) < 107 :=
  batch_bounds_within_latest (honestEnv 107) [⟨"q", 99⟩] 107 rfl 100 (by decide)

/-- C6: when the computed next height strictly exceeds the reported latest
height, the cycle is a successful no-op: zero fetches, zero insert
statements, store unchanged. -/
theorem noop_when_caught_up (env : Env) (s : Store) (latest : Int)
    (h1 : env.lastHeight = Except.ok latest) (h2 : height_to_index s > latest) :
    index env s = ⟨s, [], 0, 0, none⟩ := by
  unfold index
  rw [h1]
  simp only
  rw [if_pos h2]

theorem noop_when_caught_up_witness :
    index (honestEnv 0) [] = ⟨[], [], 0, 0, none⟩ :=
  noop_when_caught_up (honestEnv 0) [] 0 rfl (by decide)

/-- C7: startup connects with at most ten attempts; the first successful
attempt wins and its handle is returned, and if all ten fail the connector and hence
`main` fail with the store-unavailable error
(`CouldNotCreateDatabaseClient`) and the periodic loop is never
started. -/
theorem startup_retry_bound (attempt : Nat → Option DbClient) :
    ((∀ k, k < 10 → attempt k = none) →
      connect_to_database attempt = Except.error Error.CouldNotCreateDatabaseClient ∧
      main_startup true attempt
        = MainPhase.failedStartup Error.CouldNotCreateDatabaseClient) ∧
    (∀ (k : Nat) (c : DbClient), k < 10 → attempt k = some c →
      (∀ j, j < k → attempt j = none) →
      connect_to_database attempt = Except.ok c ∧
      main_startup true attempt = MainPhase.runningLoop c) := by
  constructor
  · intro hnone
    have hc : connect_to_database attempt = Except.error Error.CouldNotCreateDatabaseClient :=
      connect_from_fail attempt 10 0 (fun j hj => by simpa using hnone j hj)
    refine ⟨hc, ?_⟩
    unfold main_startup
    rw [if_pos rfl, hc]
  · intro k c hk hsome hnone
    have hc : connect_to_database attempt = Except.ok c :=
      connect_from_first attempt 10 0 k c (Nat.zero_le _) (by omega) hsome
        (fun j _ hj => hnone j hj)
    refine ⟨hc, ?_⟩
    unfold main_startup
    rw [if_pos rfl, hc]

theorem startup_retry_bound_witness :
    (connect_to_database (fun _ => none) = Except.error Error.CouldNotCreateDatabaseClient ∧
     main_startup true (fun _ => none)
       = MainPhase.failedStartup Error.CouldNotCreateDatabaseClient) ∧
    (connect_to_database (fun k => if k = 3 then some ⟨7⟩ else none) = Except.ok ⟨7⟩ ∧
     main_startup true (fun k => if k = 3 then some ⟨7⟩ else none)
       = MainPhase.runningLoop ⟨7⟩) :=
  ⟨(startup_retry_bound (fun _ => none)).1 (fun _ _ => rfl),
   (startup_retry_bound (fun k => if k = 3 then some ⟨7⟩ else none)).2 3 ⟨7⟩ (by decide)
     (by decide) (fun j hj => by
       have : j ≠ 3 := by omega
       simp [this])⟩

/-- C8: when all fetches of a batch succeed, any two completion orders of
the same spawned heights yield the same multiset of rows, each row pairing
the proposer with the height carried in the own header of that block. -/
theorem fetch_order_independence (fetchBlock : Int → Except Error Header)
    (ord1 ord2 : List Int) (hperm : ord1.Perm ord2)
    (hok : ∀ x ∈ ord1, ∃ hd, fetchBlock x = Except.ok hd) :
    request_proposers fetchBlock ord1 = Except.ok (ord1.map (recordOf fetchBlock)) ∧
    request_proposers fetchBlock ord2 = Except.ok (ord2.map (recordOf fetchBlock)) ∧
    (ord1.map (recordOf fetchBlock)).Perm (ord2.map (recordOf fetchBlock)) ∧
    ∀ x ∈ ord1, ∀ hd, fetchBlock x = Except.ok hd →
      recordOf fetchBlock x = ⟨hd.proposer_address, hd.height⟩ := by
  refine ⟨request_proposers_ok hok,
    request_proposers_ok (fun x hx => hok x (hperm.mem_iff.mpr hx)),
    hperm.map _, ?_⟩
  intro x hx hd hfd
  unfold recordOf
  rw [hfd]
  rfl

theorem fetch_order_independence_witness :
    request_proposers honestFetch [10, 11, 12]
        = Except.ok ([10, 11, 12].map (recordOf honestFetch)) ∧
    request_proposers honestFetch [12, 10, 11]
        = Except.ok ([12, 10, 11].map (recordOf honestFetch)) ∧
    ([10, 11, 12].map (recordOf honestFetch)).Perm
      ([12, 10, 11].map (recordOf honestFetch)) :=
  ⟨(fetch_order_independence honestFetch [10, 11, 12] [12, 10, 11] (by decide)
      (fun x _ => ⟨chainHeader x, rfl⟩)).1,
   (fetch_order_independence honestFetch [10, 11, 12] [12, 10, 11] (by decide)
      (fun x _ => ⟨chainHeader x, rfl⟩)).2.1,
   (fetch_order_independence honestFetch [10, 11, 12] [12, 10, 11] (by decide)
      (fun x _ => ⟨chainHeader x, rfl⟩)).2.2.1⟩

/-- C9: when the computed next height equals the reported latest height,
the cycle is the same successful no-op as the strictly-greater case (zero
fetches, zero writes); the checkpoint then sits at `latest - 1`, and after
any fully successful cycle against the honest environment the maximum
stored height is `latest - 1`, never `latest` itself. -/
theorem caught_up_boundary (env : Env) (s : Store) (L : Int)
    (h1 : env.lastHeight = Except.ok L) (h2 : height_to_index s = L) :
    index env s = ⟨s, [], 0, 0, none⟩ ∧
    lastIndexedHeight (index env s).store = L - 1 ∧
    (∀ s0 : Store, height_to_index s0 ≤ L →
      (index (honestEnv L) s0).error = none ∧
      lastIndexedHeight (index (honestEnv L) s0).store = L - 1) := by
  have hmain : index env s = ⟨s, [], 0, 0, none⟩ := by
    have hnotgt : ¬ height_to_index s > L := by omega
    unfold index
    rw [h1]
    simp only
    rw [if_neg hnotgt, h2, sub_self]
    rfl
  refine ⟨hmain, ?_, ?_⟩
  · rw [hmain]
    unfold height_to_index at h2
    simp only
    omega
  · intro s0 hle
    have hheights : ∀ r ∈ s0, r.height < height_to_index s0 := by
      intro r hr
      have := height_le_lastIndexedHeight hr
      unfold height_to_index
      omega
    have hrun := indexLoop_honest L ((L - height_to_index s0).toNat) (height_to_index s0) s0
      le_rfl hheights
    have hnotgt : ¬ height_to_index s0 > L := by omega
    have hform : index (honestEnv L) s0
        = indexLoop (honestEnv L) ((L - height_to_index s0).toNat) (height_to_index s0) L s0 := by
      unfold index
      simp only [honestEnv]
      rw [if_neg hnotgt]
    rw [hform]
    refine ⟨hrun.2, ?_⟩
    rw [hrun.1]
    by_cases heq : height_to_index s0 = L
    · rw [intRange_eq_nil (by omega)]
      unfold height_to_index at heq
      simp only [List.map_nil, List.append_nil]
      omega
    · have hlt : height_to_index s0 < L := by omega
      rw [lastIndexedHeight_eq]
      have hmax : ((s0 ++ (intRange (height_to_index s0) L).map chainRecord).map
          ProposerToHeight.height).max? = some (L - 1) := by
        apply int_max?_iff.mpr
        constructor
        · rw [List.map_append, map_height_map_chainRecord]
          exact List.mem_append_right _ (mem_intRange.mpr ⟨by omega, by omega⟩)
        · intro b hb
          rw [List.map_append, map_height_map_chainRecord, List.mem_append] at hb
          rcases hb with hb | hb
          · obtain ⟨r, hr, rfl⟩ := List.mem_map.mp hb
            have := height_le_lastIndexedHeight hr
            unfold height_to_index at hle hlt
            omega
          · have := mem_intRange.mp hb
            omega
      rw [hmax]
      rfl

theorem caught_up_boundary_witness :
    index (honestEnv 8) [⟨"a", 7⟩] = ⟨[⟨"a", 7⟩], [], 0, 0, none⟩ ∧
    lastIndexedHeight (index (honestEnv 8) [⟨"a", 7⟩]).store = 8 - 1 ∧
    ((index (honestEnv 8) [⟨"a", 7⟩]).error = none ∧
     lastIndexedHeight (index (honestEnv 8) [⟨"a", 7⟩]).store = 8 - 1) :=
  ⟨(caught_up_boundary (honestEnv 8) [⟨"a", 7⟩] 8 rfl (by decide)).1,
   (caught_up_boundary (honestEnv 8) [⟨"a", 7⟩] 8 rfl (by decide)).2.1,
   (caught_up_boundary (honestEnv 8) [⟨"a", 7⟩] 8 rfl (by decide)).2.2 [⟨"a", 7⟩]
     (by decide)⟩

/-- C10: for `nextHeight ≤ latest` the per-cycle catch-up loop terminates:
any fuel of at least `latest - nextHeight` gives the same outcome, the
number of batches entered is at most `⌈(latest - nextHeight) / 5⌉`, and
whenever `first < latest` the batch end strictly exceeds `first` while
never exceeding `latest`. -/
theorem catchup_loop_terminates (env : Env) (first last : Int) (s : Store)
    (hle : first ≤ last) :
    (∀ fuel : Nat, (last - first).toNat ≤ fuel →
      indexLoop env fuel first last s
        = indexLoop env ((last - first).toNat) first last s) ∧
    (indexLoop env ((last - first).toNat) first last s).batches
        ≤ ((last - first).toNat + 4) / 5 ∧
    (∀ f : Int, f < last →
      f < last_height_to_index f last ∧ last_height_to_index f last ≤ last) :=
  ⟨fun fuel hf => indexLoop_stable env last fuel first s hf,
    indexLoop_batches_le env last _ first s,
    fun _ hf => last_height_to_index_bounds hf⟩

theorem catchup_loop_terminates_witness :
    indexLoop (honestEnv 107) 9 100 107 []
        = indexLoop (honestEnv 107) (((107 : Int) - 100).toNat) 100 107 [] ∧
    (indexLoop (honestEnv 107) (((107 : Int) - 100).toNat) 100 107 []).batches
        ≤ ((((107 : Int) - 100).toNat) + 4) / 5 ∧
    ((100 : Int) < last_height_to_index 100 107 ∧ last_height_to_index 100 107 ≤ 107) :=
  ⟨(catchup_loop_terminates (honestEnv 107) 100 107 [] (by decide)).1 9 (by decide),
   (catchup_loop_terminates (honestEnv 107) 100 107 [] (by decide)).2.1,
   (catchup_loop_terminates (honestEnv 107) 100 107 [] (by decide)).2.2 100 (by decide)⟩

end Osmosis
